import Mathlib

/-!
Verification development for the `seqopt` repository (online feedback-driven
sequence re-ranker).

Shallow embedding notes:
* A Python feed entry `{'key': k, 'pos': p, 'reward': r}` becomes `FeedItem`.
  Rewards are modelled as rationals (`ℚ`), positions as naturals.
* `collections.Counter` is modelled as the list of all key occurrences
  appended so far (`counter : List String`); only key membership and the key
  set are ever read by the code under study.
* Python `set(...)` values are modelled as deduplicated lists: only
  membership, cardinality and emptiness of those sets are relevant to the
  properties below.
* Randomness (`random.sample`, `random.randint`) is modelled by explicit
  oracle parameters, constrained by hypotheses where a property needs the
  actual sampling contract (sample without replacement from the given list).
* `list.insert(i, x)` in Python clamps `i` to the list length (an index past
  the end appends); `pyInsert` reproduces exactly that.
-/

structure FeedItem where
  key : String
  pos : Nat
  reward : ℚ
deriving DecidableEq

abbrev Feed := List FeedItem

/-- The ordered list of keys of a feed. -/
def feedKeys (f : Feed) : List String := f.map (fun x => x.key)

/-- One entry of `Logs.experiment_logs` (schema fixed in `process.Logs`). -/
structure EpisodeRecord where
  episode : Nat
  is_opt_episode : Bool
  feed : Option Feed
  feed_out : Option Feed
  items_added : Option (List String)
deriving DecidableEq

/-- State of `seqopt.process.Logs`. -/
structure Logs where
  initial_population : Option (List String)
  population_growth : Bool
  feeds : List Feed
  experiment_logs : List EpisodeRecord
  counter : List String
  feed : Option Feed
  feed_out : Option Feed
  items_to_try : Option (List String)
deriving DecidableEq

/-- Python truthiness of the `initial_population` attribute: `None` and the
empty list are both falsy. -/
def pyTruthy (o : Option (List String)) : Bool :=
  match o with
  | none => false
  | some l => !l.isEmpty

/-- `Logs.population` property: if no (truthy) initial population is set, the
keys seen in the feeds; with growth, the union of initial population and seen
keys; otherwise the initial population itself.  Python returns a `set` in the
first two branches; sets are modelled as deduplicated lists. -/
def Logs.population (s : Logs) : List String :=
  if pyTruthy s.initial_population = false then
    s.counter.dedup
  else if s.population_growth then
    ((s.initial_population.getD []) ++ s.counter).dedup
  else
    s.initial_population.getD []

/-- `Logs.log_feed`: append the feed, remember it as current, and extend the
occurrence counter with every key of the feed. -/
def Logs.log_feed (s : Logs) (f : Feed) : Logs :=
  { s with feeds := s.feeds ++ [f],
           feed := some f,
           counter := s.counter ++ feedKeys f }

/-- `Logs.log_episode`: append an `EpisodeRecord` snapshotting the pending
feed, feed_out and items_added. -/
def Logs.log_episode (s : Logs) (episode : Nat) (is_opt : Bool) : Logs :=
  { s with experiment_logs := s.experiment_logs ++
      [{ episode := episode, is_opt_episode := is_opt, feed := s.feed,
         feed_out := s.feed_out, items_added := s.items_to_try }] }

/-- `Logs.unused_items` property: population members whose key has not been
counted yet; the empty list when no (truthy) initial population is set. -/
def Logs.unused_items (s : Logs) : List String :=
  if pyTruthy s.initial_population then
    s.population.filter (fun item => ¬ item ∈ s.counter)
  else
    []

/-- `Logs.reset_logs`: clears feeds, experiment logs, counter and the pending
feed / feed_out / items_to_try.  The configuration fields
(`initial_population`, `population_growth`) are kept. -/
def Logs.reset_logs (s : Logs) : Logs :=
  { s with feeds := [], experiment_logs := [], counter := [],
           feed := none, feed_out := none, items_to_try := none }

/-- State of `seqopt.process.Experiments` (which inherits `Logs`). -/
structure Experiments extends Logs where
  episode : Nat
  experiment_id : Nat
  logged_experiments : List (Nat × List EpisodeRecord)
deriving DecidableEq

/-- Python dict assignment `d[k] = v` on an insertion-ordered dict modelled
as an association list: replace in place if the key exists, else append. -/
def assocSet (d : List (Nat × List EpisodeRecord)) (k : Nat)
    (v : List EpisodeRecord) : List (Nat × List EpisodeRecord) :=
  if d.any (fun p => p.1 == k) then
    d.map (fun p => if p.1 == k then (k, v) else p)
  else
    d ++ [(k, v)]

/-- `Experiments.add_experiment`: archive the open experiment under its id,
but only when it has at least one episode record. -/
def Experiments.add_experiment (s : Experiments) : Experiments :=
  if s.experiment_logs.isEmpty then s
  else { s with logged_experiments :=
          assocSet s.logged_experiments s.experiment_id s.experiment_logs }

/-- `Experiments.experiments` property: the archived experiments merged with
the open experiment under the current id (`{**logged, id: logs}`). -/
def Experiments.experiments (s : Experiments) : List (Nat × List EpisodeRecord) :=
  assocSet s.logged_experiments s.experiment_id s.experiment_logs

/-- The key set of the `experiments` dict (what Python `in` tests). -/
def Experiments.experimentKeys (s : Experiments) : List Nat :=
  s.experiments.map (fun p => p.1)

/-- `seqopt.process.Trials` configuration. -/
structure Trials where
  n : Nat
  add_to : String
deriving DecidableEq

/-- The acceptable insertion policies of `Trials.add_to`. -/
def acceptableAddTo : List String := ["last", "first", "middle", "random"]

/-- The `Trials` constructor together with the validating `add_to` setter:
`None` defaults to `"last"`; a string outside the acceptable list raises
`ValueError` (modelled as `Except.error`). -/
def mkTrials (n : Nat) (add_to : Option String) : Except String Trials :=
  match add_to with
  | none => Except.ok { n := n, add_to := "last" }
  | some s =>
      if s ∈ acceptableAddTo then Except.ok { n := n, add_to := s }
      else Except.error "add_to should be one of the following : last, first, middle, random"

/-- Python `list.insert i x`: insert before position `i`, appending when `i`
is at or past the end (Python clamps the index, it never raises). -/
def pyInsert : List FeedItem → Nat → FeedItem → List FeedItem
  | l, 0, x => x :: l
  | [], _ + 1, x => [x]
  | y :: ys, n + 1, x => y :: pyInsert ys n x

/-- The de-duplicated items of `Trials.add_keys`:
`set([item for item in items if item not in [f['key'] for f in feed]])`.
Python set iteration order is arbitrary; the list model fixes one order, and
every property proved below is order-insensitive. -/
def newItems (feed : Feed) (items : List String) : List String :=
  (items.filter (fun i => ¬ i ∈ feedKeys feed)).dedup

/-- The insertion loop of `Trials.add_keys`: the `ix`-th remaining item is
inserted at `indices[ix]` with `pos = ix` and `reward = 0`.  Out-of-range
index access is modelled by `List.getD` here; `insertLoopChecked` below keeps
the Python `IndexError` behaviour. -/
def insertLoop (indices : List Nat) : List FeedItem → Nat → List String → List FeedItem
  | acc, _, [] => acc
  | acc, ix, i :: rest =>
      insertLoop indices (pyInsert acc (indices.getD ix 0) { key := i, pos := ix, reward := 0 }) (ix + 1) rest

/-- Modelled from the spec: `seqopt.optimizers.helpers.reposition_by_index`
is not under `src/`; per the spec, after insertion every item's `pos` field
is recomputed to match its new index. -/
def reposition_by_index_from (i : Nat) : Feed → Feed
  | [] => []
  | x :: xs => { x with pos := i } :: reposition_by_index_from (i + 1) xs

/-- Modelled from the spec: recompute every `pos` to the item's index. -/
def reposition_by_index (f : Feed) : Feed := reposition_by_index_from 0 f

/-- `Trials.add_keys feed items indices`: copy the feed, drop items whose key
is already present, insert the remaining items at the given indices with
reward 0, and recompute positions. -/
def Trials.add_keys (feed : Feed) (items : List String) (indices : List Nat) : Feed :=
  reposition_by_index (insertLoop indices feed 0 (newItems feed items))

/-- The checked insertion loop: `indices[ix]` raises `IndexError` in Python
when `ix` is out of range, modelled by `none`. -/
def insertLoopChecked (indices : List Nat) : List FeedItem → Nat → List String → Option (List FeedItem)
  | acc, _, [] => some acc
  | acc, ix, i :: rest =>
      match indices.get? ix with
      | none => none
      | some idx =>
          insertLoopChecked indices (pyInsert acc idx { key := i, pos := ix, reward := 0 }) (ix + 1) rest

/-- `Trials.add_keys` with Python's `IndexError` made explicit: `none` iff
some insertion would read past the end of `indices`. -/
def Trials.add_keys_checked (feed : Feed) (items : List String) (indices : List Nat) : Option Feed :=
  (insertLoopChecked indices feed 0 (newItems feed items)).map reposition_by_index

/-- Python `round(length / 2)` (banker's rounding: halves round to the
nearest even integer). -/
def pyRoundHalf (length : Nat) : Nat :=
  if length % 2 = 0 then length / 2
  else if (length / 2) % 2 = 0 then length / 2 else length / 2 + 1

/-- `Trials._find_indices_to_add`.  The `random` policy draws `n` integers
uniformly from `[0, n]`; those draws enter as the oracle argument `ridx`. -/
def Trials.find_indices_to_add (n length : Nat) (add_to : String) (ridx : List Nat) : List Nat :=
  if add_to = "last" then (List.range n).map (fun i => length + i)
  else if add_to = "first" then (List.range n).map (fun i => 0 + i)
  else if add_to = "middle" then (List.range n).map (fun i => pyRoundHalf length + i)
  else ridx

/-- `Trials.run feed_out unused_items`: clamp the budget to the available
unused items, sample that many (the sample is the oracle argument `sample`,
constrained by hypotheses at use sites), compute target indices, and insert.
Returns the sampled items and the new feed. -/
def Trials.run (t : Trials) (feed_out : Feed) (unused_items : List String)
    (sample : List String) (ridx : List Nat) : List String × Feed :=
  let n_add := if unused_items.length < t.n then unused_items.length else t.n
  let indices := Trials.find_indices_to_add n_add feed_out.length t.add_to ridx
  (sample, Trials.add_keys feed_out sample indices)

/-- State and configuration of `seqopt.callbacks.Progress` (the `verbose`
flag only controls printing and is omitted). -/
structure Progress where
  episodes : Option Nat
  patience : Option Nat
  start_at : Nat
  do_stop : Bool
  stop : Bool
  is_stagnant : Bool
  n : Nat
  last_keys : List String
deriving DecidableEq

/-- `Progress.reset`. -/
def Progress.reset (p : Progress) : Progress :=
  { p with stop := false, is_stagnant := false, n := 0, last_keys := [] }

/-- The body of `Progress.early_stop` on the most recent episode record.
A record with `feed_out = None` would make the Python comprehension raise a
`TypeError`; the driver only stores `some` feed_outs on optimization
episodes, so that branch is modelled as the empty key list. -/
def Progress.early_stop_step (p : Progress) (r : EpisodeRecord) : Progress :=
  match p.patience with
  | none => p
  | some pt =>
      if r.is_opt_episode then
        let curKeys := feedKeys (r.feed_out.getD [])
        if p.start_at ≤ r.episode ∧ p.last_keys = curKeys then
          let p1 : Progress := { p with n := p.n + 1 }
          if pt ≤ p1.n then
            let p2 : Progress := { p1 with is_stagnant := true }
            if p2.do_stop then { p2 with stop := true } else p2
          else { p1 with last_keys := curKeys }
        else { p with n := 0, last_keys := curKeys }
      else p

/-- `Progress.early_stop logs`: acts on `logs[-1]`, no-op on empty logs or
unset patience. -/
def Progress.early_stop (p : Progress) (logs : List EpisodeRecord) : Progress :=
  match logs.getLast? with
  | none => p
  | some r => Progress.early_stop_step p r

/-- `Progress.episode_stopper logs`: sets `stop` when the episode ceiling is
configured and the latest logged episode number has reached it. -/
def Progress.episode_stopper (p : Progress) (logs : List EpisodeRecord) : Progress :=
  match p.episodes, logs.getLast? with
  | some c, some r => if c ≤ r.episode then { p with stop := true } else p
  | _, _ => p

/-- `Progress.invoke`: episode stopper then early stop.  The source calls
both without arguments; the spec's parameterized variant (which this
development follows, as the spec directs) threads the experiment logs. -/
def Progress.invoke (p : Progress) (logs : List EpisodeRecord) : Progress :=
  Progress.early_stop (Progress.episode_stopper p logs) logs

/-- Modelled from the spec: `seqopt.callbacks.EpisodeLimit` (referenced by
`SeqOpt.__init__` but absent from `src/`): a stopper holding the episode
ceiling; its invocation sets `stop` when the latest episode number has
reached the ceiling. -/
structure EpisodeLimit where
  n_episodes : Option Nat
  stop : Bool
deriving DecidableEq

/-- Modelled from the spec: the episode-ceiling check of `EpisodeLimit`:
if the ceiling is set and the latest episode number is at or past it, set
`stop = true`. -/
def EpisodeLimit.invoke (st : EpisodeLimit) (logs : List EpisodeRecord) : EpisodeLimit :=
  match st.n_episodes, logs.getLast? with
  | some c, some r => if c ≤ r.episode then { st with stop := true } else st
  | _, _ => st

/-- Modelled from the spec: `EpisodeLimit.reset` clears the stop flag. -/
def EpisodeLimit.reset (st : EpisodeLimit) : EpisodeLimit :=
  { st with stop := false }

/-- `seqopt.optimizers.scorers.Scorers` configuration (the aggregation part;
the normalization subclasses are irrelevant to the claims below). -/
structure Scorers where
  per_episode : Bool
  agg_strategy : String
deriving DecidableEq

/-- The acceptable aggregation strategies (`Scorers._acc_strategy`). -/
def accStrategy : List String := ["mean", "sum", "min", "max"]

/-- The `Scorers` constructor: an aggregation strategy outside the
acceptable list raises `ValueError` at construction time. -/
def mkScorers (per_episode : Bool) (agg_strategy : String) : Except String Scorers :=
  if agg_strategy ∈ accStrategy then
    Except.ok { per_episode := per_episode, agg_strategy := agg_strategy }
  else
    Except.error "agg_strategy must be one of these values : mean, sum, min, max"

/-- The numpy reducer selected by name (`getattr(numpy, strategy)`), on the
rational reward lists this code applies it to.  The argument list is never
empty at call sites (each entry of `units_dict` is created nonempty). -/
def aggMethod (strategy : String) (l : List ℚ) : ℚ :=
  if strategy = "mean" then l.sum / (l.length : ℚ)
  else if strategy = "sum" then l.sum
  else if strategy = "min" then l.foldl min (l.headD 0)
  else l.foldl max (l.headD 0)

/-- Python `units_dict.update({k: units_dict.get(k, []) + [r]})` on an
insertion-ordered dict: extend the entry in place, or append a new one. -/
def updUnits : List (String × List ℚ) → String → ℚ → List (String × List ℚ)
  | [], k, r => [(k, [r])]
  | (k1, v) :: rest, k, r =>
      if k1 = k then (k1, v ++ [r]) :: rest else (k1, v) :: updUnits rest k r

/-- The `units_dict` accumulation loop of `Scorers.agg`, folded over the
feed items in iteration order. -/
def unitsGo : List (String × List ℚ) → List FeedItem → List (String × List ℚ)
  | d, [] => d
  | d, i :: rest => unitsGo (updUnits d i.key i.reward) rest

/-- `units_dict` built from all feeds (`for feed in feeds for i in feed`). -/
def unitsDict (feeds : List Feed) : List (String × List ℚ) :=
  unitsGo [] feeds.flatten

/-- Stable insertion into a descending-sorted feed (equal measures keep the
original relative order). -/
def insertDescBy (f : FeedItem → ℚ) (x : FeedItem) : Feed → Feed
  | [] => [x]
  | y :: ys => if f x ≤ f y then y :: insertDescBy f x ys else x :: y :: ys

/-- Stable descending sort by a numeric field. -/
def sortDescBy (f : FeedItem → ℚ) : Feed → Feed
  | [] => []
  | x :: xs => insertDescBy f x (sortDescBy f xs)

/-- Modelled from the spec: `seqopt.optimizers.helpers.reposition` is not
under `src/`; per the spec, the output is reordered descending by the given
field with ties broken by original relative order (stable sort), and every
`pos` is recomputed to the new index. -/
def reposition (l : Feed) (f : FeedItem → ℚ) : Feed :=
  reposition_by_index (sortDescBy f l)

/-- `Scorers.agg feeds`: when not per-episode, reduce each key's reward list
with the chosen strategy (one entry per key, `pos` reset to 0) and reorder
by reward; when per-episode, reorder the latest feed by reward.  Python
`feeds[-1]` raises on an empty list; the driver never calls `agg` with empty
feeds, and that branch is modelled as the empty feed. -/
def Scorers.agg (sc : Scorers) (feeds : List Feed) : Feed :=
  if sc.per_episode = false then
    let aggList := (unitsDict feeds).map
      (fun kv => { key := kv.1, pos := 0, reward := aggMethod sc.agg_strategy kv.2 : FeedItem })
    reposition aggList (fun x => x.reward)
  else
    reposition ((feeds.getLast?).getD []) (fun x => x.reward)

/-- State of `seqopt.model.SeqOpt` (which inherits `Experiments`).  The
source keeps the scorer/selector strategy objects and the two callbacks on
the instance; the strategies enter the step function as oracle parameters
(`StepOracles`), the callbacks are embedded state.  `restart_on_stagnation`
is modelled from the spec: the `self.reset` attribute consulted by
`SeqOpt.opt` is set by glue code that is not under `src/`; per the spec the
restart signal is raised by stagnation when `restart_on_stagnation` is
configured. -/
structure SeqOpt extends Experiments where
  interval : Nat
  trials : Trials
  progress : Progress
  stopper : EpisodeLimit
  restart_on_stagnation : Bool
deriving DecidableEq

/-- The external collaborators of one driver step: `selscore` is the
scorer/selector pipeline (`selectors.do_select` composed with
`scorers.do_score`, both pluggable strategies per the spec), `sample` models
`random.sample unused n_add`, and `ridx` models the random insertion
offsets. -/
structure StepOracles where
  selscore : Logs → Feed
  sample : List String → Nat → List String
  ridx : Nat → List Nat

/-- `SeqOpt.is_opt_episode`: true iff the episode counter is a multiple of
the optimization interval. -/
def SeqOpt.is_opt_episode (s : SeqOpt) : Bool :=
  s.episode % s.interval == 0

/-- `SeqOpt.select_and_score`: recompute `feed_out` through the pluggable
scorer/selector pipeline (the oracle). -/
def SeqOpt.select_and_score (o : StepOracles) (s : SeqOpt) : SeqOpt :=
  { s with feed_out := some (o.selscore s.toLogs) }

/-- `SeqOpt.add_trial_items`: run the trial injector on the current
`feed_out` and the unused items, storing the injected keys and the new
`feed_out`. -/
def SeqOpt.add_trial_items (o : StepOracles) (s : SeqOpt) : SeqOpt :=
  let unused := s.toLogs.unused_items
  let n_add := if unused.length < s.trials.n then unused.length else s.trials.n
  let res := Trials.run s.trials (s.feed_out.getD []) unused (o.sample unused n_add) (o.ridx n_add)
  { s with items_to_try := some res.1, feed_out := some res.2 }

/-- Modelled from the spec: the `self.reset` flag read by `SeqOpt.opt` (set
by driver glue absent from `src/`): the restart signal, raised when
stagnation has been declared and restart-on-stagnation is configured. -/
def SeqOpt.resetFlag (s : SeqOpt) : Bool :=
  s.restart_on_stagnation && s.progress.is_stagnant

/-- `SeqOpt.reset_model`: clear the logs, reset both callbacks, zero the
episode counter and move to the next experiment id. -/
def SeqOpt.reset_model (s : SeqOpt) : SeqOpt :=
  { s with toLogs := s.toLogs.reset_logs,
           progress := s.progress.reset,
           stopper := s.stopper.reset,
           episode := 0,
           experiment_id := s.experiment_id + 1 }

/-- `add_experiment` lifted to the driver state. -/
def SeqOpt.add_experiment (s : SeqOpt) : SeqOpt :=
  { s with toExperiments := s.toExperiments.add_experiment }

/-- The stop condition checked at the top of `SeqOpt.opt`, after the episode
stopper has been invoked on the current logs. -/
def SeqOpt.stopCond (s : SeqOpt) : Bool :=
  (s.stopper.invoke s.experiment_logs).stop || s.progress.stop

/-- The driver state right after `self.stopper.invoke(self.logger.logs)`. -/
def SeqOpt.stopperUpd (s : SeqOpt) : SeqOpt :=
  { s with stopper := s.stopper.invoke s.experiment_logs }

/-- The non-stopped part of `SeqOpt.opt` up to (and including)
`self.progress.invoke(...)`: log the feed, on optimization episodes
recompute `feed_out` and inject trial items, log the episode, run the
progress callback. -/
def SeqOpt.optCore (o : StepOracles) (s : SeqOpt) (f : Feed) : SeqOpt :=
  let s1 : SeqOpt := { s with toLogs := s.toLogs.log_feed f }
  let s2 := if s1.is_opt_episode then SeqOpt.add_trial_items o (SeqOpt.select_and_score o s1) else s1
  let s3 : SeqOpt := { s2 with toLogs := s2.toLogs.log_episode s2.episode s2.is_opt_episode }
  { s3 with progress := s3.progress.invoke s3.experiment_logs }

/-- `SeqOpt.opt`, one driver step: invoke the episode stopper; when either
callback says stop, archive only if the current experiment id is missing
from `experiments` (Python `if self.experiment_id not in self.experiments`)
and return the previous `feed_out`; otherwise run the normal step, and
either reset (returning `None`) when the reset flag is up, or advance the
episode counter and return the current `feed_out`. -/
def SeqOpt.opt (o : StepOracles) (s : SeqOpt) (f : Feed) : SeqOpt × Option Feed :=
  let s0 := SeqOpt.stopperUpd s
  if s0.stopper.stop || s0.progress.stop then
    let s1 := if s0.experiment_id ∈ s0.toExperiments.experimentKeys then s0
              else SeqOpt.add_experiment s0
    (s1, s1.feed_out)
  else
    let s4 := SeqOpt.optCore o s0 f
    if SeqOpt.resetFlag s4 then (SeqOpt.reset_model (SeqOpt.add_experiment s4), none)
    else ({ s4 with episode := s4.episode + 1 }, s4.feed_out)

/-- Iterate driver steps over a list of feedback inputs. -/
def SeqOpt.runSteps (o : StepOracles) : SeqOpt → List Feed → SeqOpt
  | s, [] => s
  | s, f :: fs => SeqOpt.runSteps o (SeqOpt.opt o s f).1 fs

/-- A freshly constructed engine (`SeqOpt.__init__`). -/
def mkSeqOpt (population : Option (List String)) (growth : Bool) (n_try : Nat)
    (add_to : String) (episodes : Option Nat) (interval : Nat)
    (progress : Progress) (ros : Bool) : SeqOpt :=
  { initial_population := population, population_growth := growth,
    feeds := [], experiment_logs := [], counter := [], feed := none,
    feed_out := none, items_to_try := none, episode := 0, experiment_id := 0,
    logged_experiments := [], interval := interval,
    trials := { n := n_try, add_to := add_to },
    progress := progress, stopper := { n_episodes := episodes, stop := false },
    restart_on_stagnation := ros }

/-- A fresh `Progress` callback with the given configuration. -/
def mkProgress (episodes patience : Option Nat) (start_at : Nat) (do_stop : Bool) : Progress :=
  { episodes := episodes, patience := patience, start_at := start_at,
    do_stop := do_stop, stop := false, is_stagnant := false, n := 0, last_keys := [] }

/-- Repeated invocation of the stagnation detector, one freshly appended
episode record at a time (within the driver, `early_stop` always acts on the
last record of the growing log list). -/
def earlyStopIter (p : Progress) : List EpisodeRecord → Progress
  | [] => p
  | r :: rs => earlyStopIter (Progress.early_stop_step p r) rs

/-- A fresh `Logs` state with the given configuration (`Logs.__init__`). -/
def mkLogs (population : Option (List String)) (growth : Bool) : Logs :=
  { initial_population := population, population_growth := growth,
    feeds := [], experiment_logs := [], counter := [], feed := none,
    feed_out := none, items_to_try := none }

/-- A deterministic oracle: the scorer/selector always yields the singleton
feed `[k]`, sampling always returns the empty list. -/
def constOracle : StepOracles :=
  { selscore := fun _ => [{ key := "k", pos := 0, reward := 0 }],
    sample := fun _ _ => [], ridx := fun _ => [] }

/-- Engine configured to restart on stagnation (patience 1). -/
def restartState : SeqOpt :=
  mkSeqOpt none false 0 "last" none 1 (mkProgress none (some 1) 0 false) true

/-- Engine configured with episode ceiling 3 (the claim C5 scenario). -/
def ceilingState : SeqOpt :=
  mkSeqOpt none false 0 "last" (some 3) 1 (mkProgress none none 0 false) false

/-- An optimization episode record whose feed_out has key order `["a"]`. -/
def aRecord (e : Nat) : EpisodeRecord :=
  { episode := e, is_opt_episode := true, feed := none,
    feed_out := some [{ key := "a", pos := 0, reward := 0 }], items_added := none }

/-- The engine has reached its episode ceiling `c`: the stopper is
configured with ceiling `c` and the latest logged episode number is at or
past `c` (so every further step takes the stop branch). -/
def ceilingReached (c : Nat) (s : SeqOpt) : Prop :=
  s.stopper.n_episodes = some c ∧
  ∃ r, s.experiment_logs.getLast? = some r ∧ c ≤ r.episode

/-- Invariant of the claim C5 scenario after `k` driver steps: inert
progress callback (no ceiling, no patience), no restart, interval 1,
stopper configured with ceiling 3 and not yet triggered, episode counter
`k`, and the logged episode numbers are exactly `0, …, k-1`. -/
def c5Inv (k : Nat) (s : SeqOpt) : Prop :=
  s.progress.episodes = none ∧ s.progress.patience = none ∧
  s.progress.stop = false ∧ s.restart_on_stagnation = false ∧
  s.interval = 1 ∧ s.stopper = { n_episodes := some 3, stop := false } ∧
  s.episode = k ∧
  s.experiment_logs.map (fun r => r.episode) = List.range k

/-- A stopped engine (`progress.stop = true`) holding one episode record in
the open experiment and an empty experiment history. -/
def stoppedState : SeqOpt :=
  { mkSeqOpt none false 0 "last" none 1 (mkProgress none none 0 false) false with
      experiment_logs := [aRecord 0],
      feed_out := some [{ key := "a", pos := 0, reward := 0 }],
      progress := { mkProgress none none 0 false with stop := true } }

/-- Association-list lookup, mirroring `units_dict.get(k)` on the
insertion-ordered dict model. -/
def lookupU (k : String) : List (String × List ℚ) → Option (List ℚ)
  | [] => none
  | (k1, v) :: rest => if k1 = k then some v else lookupU k rest

/-- The reward sequence of key `k` across a list of feed items, in
iteration order. -/
def rewardsItems (k : String) (items : List FeedItem) : List ℚ :=
  (items.filter (fun i => i.key = k)).map (fun i => i.reward)

/-- The reward sequence of key `k` across the feeds of the open experiment,
in iteration order (`for feed in feeds for i in feed`). -/
def rewardsOf (k : String) (feeds : List Feed) : List ℚ :=
  rewardsItems k feeds.flatten

/-! ## Helper lemmas -/

theorem pyInsert_map_key_perm (l : List FeedItem) (i : Nat) (x : FeedItem) :
    ((pyInsert l i x).map (fun y => y.key)).Perm (x.key :: l.map (fun y => y.key)) := by
  induction l generalizing i with
  | nil => cases i <;> simp [pyInsert]
  | cons y ys ih =>
      cases i with
      | zero => simp [pyInsert]
      | succ j =>
          simp only [pyInsert, List.map_cons]
          exact ((ih j).cons y.key).trans (List.Perm.swap x.key y.key _)

theorem mem_pyInsert (l : List FeedItem) (i : Nat) (x z : FeedItem) :
    z ∈ pyInsert l i x ↔ z ∈ l ∨ z = x := by
  induction l generalizing i with
  | nil => cases i <;> simp [pyInsert]
  | cons y ys ih =>
      cases i with
      | zero => simp [pyInsert]; tauto
      | succ j => simp [pyInsert, ih]; tauto

theorem newItems_length_le (feed : Feed) (items : List String) :
    (newItems feed items).length ≤ items.length :=
  le_trans (List.Sublist.length_le (List.dedup_sublist _)) (List.length_filter_le _ _)

theorem insertLoopChecked_isSome (indices : List Nat) (its : List String) :
    ∀ (acc : List FeedItem) (ix : Nat), ix + its.length ≤ indices.length →
      (insertLoopChecked indices acc ix its).isSome = true := by
  induction its with
  | nil => intro acc ix _; simp [insertLoopChecked]
  | cons i rest ih =>
      intro acc ix h
      have hlt : ix < indices.length := by
        simp only [List.length_cons] at h; omega
      have hg : indices.get? ix = some (indices.get ⟨ix, hlt⟩) := List.get?_eq_get hlt
      simp only [insertLoopChecked, hg]
      exact ih _ (ix + 1) (by simp only [List.length_cons] at h; omega)

/-! ## Claim C2 -/

/-- C2: the claim says the population getter retains every key observed in
feedback across `reset()`.  The code clears the occurrence counter in
`reset_logs`, so with population growth enabled a key seen only in feeds
(here `"b"`) is dropped from the derived population — contradicting the
claim, the spec, and `reset_logs`'s own docstring ("Everything except the
population is reset here").  This theorem evaluates the code at the failing
input. -/
theorem C2_population_shrinks_on_reset :
    ((mkLogs (some ["a"]) true).log_feed [{ key := "b", pos := 0, reward := 0 }]).population_growth = true ∧
    "b" ∈ ((mkLogs (some ["a"]) true).log_feed [{ key := "b", pos := 0, reward := 0 }]).population ∧
    "b" ∉ (((mkLogs (some ["a"]) true).log_feed [{ key := "b", pos := 0, reward := 0 }]).reset_logs).population := by
  decide

/-! ## Claim C8 -/

/-- C8: an aggregation strategy outside mean/sum/min/max, or an insertion
policy outside last/first/middle/random, raises at construction time
(`Except.error`); every acceptable value constructs successfully, so no such
error is deferred to a later step. -/
theorem C8_config_errors_at_construction :
    (∀ (pe : Bool) (s : String), s ∉ accStrategy →
        ∃ e, mkScorers pe s = Except.error e) ∧
    (∀ (pe : Bool) (s : String), s ∈ accStrategy →
        ∃ sc, mkScorers pe s = Except.ok sc ∧ sc.agg_strategy = s ∧ sc.per_episode = pe) ∧
    (∀ (n : Nat) (s : String), s ∉ acceptableAddTo →
        ∃ e, mkTrials n (some s) = Except.error e) ∧
    (∀ (n : Nat) (s : String), s ∈ acceptableAddTo →
        ∃ t, mkTrials n (some s) = Except.ok t ∧ t.add_to = s ∧ t.n = n) := by
  refine ⟨fun pe s h => ?_, fun pe s h => ?_, fun n s h => ?_, fun n s h => ?_⟩
  · exact ⟨"agg_strategy must be one of these values : mean, sum, min, max",
      by simp [mkScorers, h]⟩
  · exact ⟨{ per_episode := pe, agg_strategy := s }, by simp [mkScorers, h], rfl, rfl⟩
  · exact ⟨"add_to should be one of the following : last, first, middle, random",
      by simp [mkTrials, h]⟩
  · exact ⟨{ n := n, add_to := s }, by simp [mkTrials, h], rfl, rfl⟩

/-- Witness for C8 at concrete strategies. -/
theorem C8_config_errors_at_construction_witness :
    (∃ e, mkScorers true "median" = Except.error e) ∧
    (∃ sc, mkScorers true "mean" = Except.ok sc ∧ sc.agg_strategy = "mean" ∧ sc.per_episode = true) ∧
    (∃ e, mkTrials 2 (some "bogus") = Except.error e) ∧
    (∃ t, mkTrials 2 (some "last") = Except.ok t ∧ t.add_to = "last" ∧ t.n = 2) :=
  ⟨C8_config_errors_at_construction.1 true "median" (by decide),
   C8_config_errors_at_construction.2.1 true "mean" (by decide),
   C8_config_errors_at_construction.2.2.1 2 "bogus" (by decide),
   C8_config_errors_at_construction.2.2.2 2 "last" (by decide)⟩

/-! ## Claim C9 -/

/-- C9: constructing with an empty fixed population behaves exactly as no
fixed population: the population getter returns the keys observed so far
(for any growth flag and any state of the counter), and `unused_items` is
empty in both configurations. -/
theorem C9_empty_population_like_none (s : Logs) (h : s.initial_population = some []) :
    s.population = ({ s with initial_population := none } : Logs).population ∧
    s.population = s.counter.dedup ∧
    s.unused_items = [] ∧
    ({ s with initial_population := none } : Logs).unused_items = [] := by
  refine ⟨?_, ?_, ?_, ?_⟩ <;>
    simp [Logs.population, Logs.unused_items, pyTruthy, h]

/-- Witness for C9 on a concrete growth-enabled state. -/
theorem C9_empty_population_like_none_witness :
    (mkLogs (some []) true).population = ({ mkLogs (some []) true with initial_population := none } : Logs).population ∧
    (mkLogs (some []) true).population = (mkLogs (some []) true).counter.dedup ∧
    (mkLogs (some []) true).unused_items = [] ∧
    ({ mkLogs (some []) true with initial_population := none } : Logs).unused_items = [] :=
  C9_empty_population_like_none (mkLogs (some []) true) rfl

/-! ## Claim C10 -/

/-- C10: `add_keys` never indexes past the end of the index tuple when the
tuple is at least as long as the item collection (de-duplication only
shrinks the item set), and the index tuples produced inside `Trials.run` by
the deterministic policies have exactly length `n`. -/
theorem C10_add_keys_no_out_of_range (feed : Feed) (items : List String) (indices : List Nat)
    (h : items.length ≤ indices.length) :
    (Trials.add_keys_checked feed items indices).isSome = true ∧
    (∀ n len : Nat, ∀ ridx : List Nat, ∀ p ∈ (["last", "first", "middle"] : List String),
        (Trials.find_indices_to_add n len p ridx).length = n) := by
  constructor
  · have hlen : (newItems feed items).length ≤ indices.length :=
      le_trans (newItems_length_le feed items) h
    have h2 := insertLoopChecked_isSome indices (newItems feed items) feed 0 (by omega)
    cases hc : insertLoopChecked indices feed 0 (newItems feed items) with
    | none => rw [hc] at h2; simp at h2
    | some v => simp [Trials.add_keys_checked, hc]
  · intro n len ridx p hp
    simp only [List.mem_cons, List.not_mem_nil, or_false] at hp
    rcases hp with rfl | rfl | rfl <;> simp [Trials.find_indices_to_add]

/-- Witness for C10 at a concrete feed, item list and index tuple. -/
theorem C10_add_keys_no_out_of_range_witness :
    (Trials.add_keys_checked [{ key := "a", pos := 0, reward := 1 }] ["b", "a"] [1, 2]).isSome = true ∧
    (Trials.find_indices_to_add 2 5 "middle" []).length = 2 :=
  ⟨(C10_add_keys_no_out_of_range [{ key := "a", pos := 0, reward := 1 }] ["b", "a"] [1, 2] (by decide)).1,
   (C10_add_keys_no_out_of_range [{ key := "a", pos := 0, reward := 1 }] ["b", "a"] [1, 2] (by decide)).2
     2 5 [] "middle" (by decide)⟩

theorem insertLoop_map_key_perm (indices : List Nat) (its : List String) :
    ∀ (acc : List FeedItem) (ix : Nat),
      ((insertLoop indices acc ix its).map (fun y => y.key)).Perm
        (acc.map (fun y => y.key) ++ its) := by
  induction its with
  | nil => intro acc ix; simp [insertLoop]
  | cons i rest ih =>
      intro acc ix
      simp only [insertLoop]
      refine (ih _ _).trans ?_
      refine (List.Perm.append_right rest
        (pyInsert_map_key_perm acc (indices.getD ix 0) { key := i, pos := ix, reward := 0 })).trans ?_
      simpa using (List.perm_middle).symm

theorem mem_insertLoop (indices : List Nat) (its : List String) :
    ∀ (acc : List FeedItem) (ix : Nat) (z : FeedItem),
      z ∈ insertLoop indices acc ix its → z ∈ acc ∨ z.reward = 0 := by
  induction its with
  | nil => intro acc ix z h; exact Or.inl h
  | cons i rest ih =>
      intro acc ix z h
      rcases ih _ _ z h with h1 | h1
      · rcases (mem_pyInsert acc (indices.getD ix 0) _ z).1 h1 with h2 | h2
        · exact Or.inl h2
        · subst h2; exact Or.inr rfl
      · exact Or.inr h1

theorem reposition_map_pair (l : Feed) : ∀ i : Nat,
    (reposition_by_index_from i l).map (fun x => (x.key, x.reward)) =
      l.map (fun x => (x.key, x.reward)) := by
  induction l with
  | nil => intro i; rfl
  | cons x xs ih => intro i; simp [reposition_by_index_from, ih]

theorem feedKeys_reposition (l : Feed) : feedKeys (reposition_by_index l) = feedKeys l := by
  have h := reposition_map_pair l 0
  have h2 := congrArg (fun m => m.map Prod.fst) h
  simpa [feedKeys, reposition_by_index] using h2

theorem mem_reposition (l : Feed) : ∀ (i : Nat) (x : FeedItem),
    x ∈ reposition_by_index_from i l → ∃ y ∈ l, x.key = y.key ∧ x.reward = y.reward := by
  induction l with
  | nil => intro i x h; simp [reposition_by_index_from] at h
  | cons a as ih =>
      intro i x h
      rcases (List.mem_cons).1 h with h1 | h1
      · exact ⟨a, List.mem_cons_self a as, by rw [h1], by rw [h1]⟩
      · rcases ih (i + 1) x h1 with ⟨y, hy, hk, hr⟩
        exact ⟨y, List.mem_cons_of_mem a hy, hk, hr⟩

theorem newItems_of_disjoint (feed : Feed) (sample : List String)
    (hnd : sample.Nodup) (hdisj : ∀ x ∈ sample, ¬ x ∈ feedKeys feed) :
    newItems feed sample = sample := by
  unfold newItems
  rw [List.filter_eq_self.mpr (fun a ha => by simpa using hdisj a ha)]
  exact List.Nodup.dedup hnd

/-! ## Claim C1 -/

/-- C1 (amended): for every input ordering with duplicate-free keys and every
set of unused items *disjoint from the input ordering's keys* (which holds
at the call site, where unused items have never occurred in any feed), the
Trial Injector's run returns an ordering whose keys are a superset of the
input keys, contain no duplicates, and contain exactly `min(n, |unused|)`
keys not present in the input, each inserted with reward 0.  The `sample`
argument stands for `random.sample(unused_items, n_add)` and is constrained
to exactly the guarantees Python gives it. -/
theorem C1_trials_run_injection (t : Trials) (feed : Feed) (unused sample : List String)
    (ridx : List Nat)
    (hkeys : (feedKeys feed).Nodup)
    (hdisj : ∀ x ∈ unused, ¬ x ∈ feedKeys feed)
    (hnd : sample.Nodup)
    (hsub : ∀ x ∈ sample, x ∈ unused)
    (hlen : sample.length = min t.n unused.length) :
    (∀ k ∈ feedKeys feed, k ∈ feedKeys (Trials.run t feed unused sample ridx).2) ∧
    (feedKeys (Trials.run t feed unused sample ridx).2).Nodup ∧
    ((feedKeys (Trials.run t feed unused sample ridx).2).filter
        (fun k => ¬ k ∈ feedKeys feed)).length = min t.n unused.length ∧
    (∀ x ∈ (Trials.run t feed unused sample ridx).2,
        ¬ x.key ∈ feedKeys feed → x.reward = 0) := by
  have hdisj2 : ∀ x ∈ sample, ¬ x ∈ feedKeys feed := fun x hx => hdisj x (hsub x hx)
  have hnew : newItems feed sample = sample := newItems_of_disjoint feed sample hnd hdisj2
  set idx := Trials.find_indices_to_add
    (if unused.length < t.n then unused.length else t.n) feed.length t.add_to ridx with hidx
  have hout : (Trials.run t feed unused sample ridx).2 =
      reposition_by_index (insertLoop idx feed 0 sample) := by
    simp [Trials.run, Trials.add_keys, hnew, hidx]
  have hperm : (feedKeys (Trials.run t feed unused sample ridx).2).Perm
      (feedKeys feed ++ sample) := by
    rw [hout, feedKeys_reposition]
    exact insertLoop_map_key_perm idx sample feed 0
  refine ⟨?_, ?_, ?_, ?_⟩
  · intro k hk
    exact hperm.mem_iff.mpr (List.mem_append_left sample hk)
  · refine hperm.nodup_iff.mpr ?_
    exact List.Nodup.append hkeys hnd (fun a ha hs => hdisj2 a hs ha)
  · rw [(hperm.filter _).length_eq, List.filter_append]
    rw [List.filter_eq_nil_iff.mpr (fun a ha => by simpa using ha)]
    rw [List.filter_eq_self.mpr (fun a ha => by simpa using hdisj2 a ha)]
    simpa using hlen
  · intro x hx hxk
    rw [hout] at hx
    rcases mem_reposition _ 0 x hx with ⟨y, hy, hk, hr⟩
    rcases mem_insertLoop idx sample feed 0 y hy with h1 | h1
    · exact absurd (by rw [hk]; exact List.mem_map_of_mem (fun z => z.key) h1) hxk
    · rw [hr, h1]

/-- Witness for C1: one unused item `"b"` is injected at the end of the
ordering `[a]` with reward 0. -/
theorem C1_trials_run_injection_witness :
    (∀ k ∈ feedKeys [{ key := "a", pos := 0, reward := 5 }],
        k ∈ feedKeys (Trials.run { n := 1, add_to := "last" }
          [{ key := "a", pos := 0, reward := 5 }] ["b"] ["b"] []).2) ∧
    (feedKeys (Trials.run { n := 1, add_to := "last" }
        [{ key := "a", pos := 0, reward := 5 }] ["b"] ["b"] []).2).Nodup ∧
    ((feedKeys (Trials.run { n := 1, add_to := "last" }
        [{ key := "a", pos := 0, reward := 5 }] ["b"] ["b"] []).2).filter
        (fun k => ¬ k ∈ feedKeys [{ key := "a", pos := 0, reward := 5 }])).length =
      min 1 (["b"] : List String).length ∧
    (∀ x ∈ (Trials.run { n := 1, add_to := "last" }
        [{ key := "a", pos := 0, reward := 5 }] ["b"] ["b"] []).2,
        ¬ x.key ∈ feedKeys [{ key := "a", pos := 0, reward := 5 }] → x.reward = 0) :=
  C1_trials_run_injection { n := 1, add_to := "last" }
    [{ key := "a", pos := 0, reward := 5 }] ["b"] ["b"] []
    (by decide) (by decide) (by decide) (by decide) (by decide)

/-- C1 counterexample to the claim as stated (quantifying over *every* set
of unused items): with input ordering `[a]`, unused items `["a"]` and
`n = 1`, the only possible sample is `["a"]`, which the defensive
de-duplication in `add_keys` drops, so 0 new keys are added although
`min(n, |unused|) = 1`. -/
theorem C1_counterexample :
    (feedKeys ([{ key := "a", pos := 0, reward := 5 }] : Feed)).Nodup ∧
    (["a"] : List String).Nodup ∧
    ((["a"] : List String).length = min 1 (["a"] : List String).length) ∧
    ((feedKeys (Trials.run { n := 1, add_to := "last" }
        [{ key := "a", pos := 0, reward := 5 }] ["a"] ["a"] []).2).filter
        (fun k => ¬ k ∈ feedKeys [{ key := "a", pos := 0, reward := 5 }])).length = 0 ∧
    min 1 (["a"] : List String).length = 1 := by
  decide

theorem lookupU_updUnits_self (d : List (String × List ℚ)) (k : String) (r : ℚ) :
    lookupU k (updUnits d k r) = some ((lookupU k d).getD [] ++ [r]) := by
  induction d with
  | nil => simp [updUnits, lookupU]
  | cons p rest ih =>
      rcases p with ⟨k1, v⟩
      by_cases h : k1 = k
      · subst h; simp [updUnits, lookupU]
      · simp [updUnits, lookupU, h, ih]

theorem lookupU_updUnits_other (d : List (String × List ℚ)) (k k2 : String) (r : ℚ)
    (h : k2 ≠ k) : lookupU k2 (updUnits d k r) = lookupU k2 d := by
  induction d with
  | nil =>
      have hne : ¬ k = k2 := fun hh => h hh.symm
      simp [updUnits, lookupU, hne]
  | cons p rest ih =>
      rcases p with ⟨k1, v⟩
      by_cases h1 : k1 = k
      · subst h1
        have hne : ¬ k1 = k2 := fun hh => h hh.symm
        simp [updUnits, lookupU, hne]
      · simp [updUnits, lookupU, h1, ih]

theorem lookupU_unitsGo (items : List FeedItem) :
    ∀ (d : List (String × List ℚ)) (k : String),
      lookupU k (unitsGo d items) =
        if lookupU k d = none ∧ rewardsItems k items = [] then none
        else some ((lookupU k d).getD [] ++ rewardsItems k items) := by
  induction items with
  | nil =>
      intro d k
      cases h : lookupU k d <;> simp [unitsGo, rewardsItems, h]
  | cons i rest ih =>
      intro d k
      by_cases hk : i.key = k
      · have hlk : lookupU k (updUnits d i.key i.reward) =
            some ((lookupU k d).getD [] ++ [i.reward]) := by
          rw [hk]; exact lookupU_updUnits_self d k i.reward
        have hri : rewardsItems k (i :: rest) = i.reward :: rewardsItems k rest := by
          simp [rewardsItems, hk]
        rw [unitsGo, ih (updUnits d i.key i.reward) k, hlk, hri]
        simp
      · have hlk : lookupU k (updUnits d i.key i.reward) = lookupU k d :=
          lookupU_updUnits_other d i.key k i.reward (fun hh => hk hh.symm)
        have hri : rewardsItems k (i :: rest) = rewardsItems k rest := by
          simp [rewardsItems, hk]
        rw [unitsGo, ih (updUnits d i.key i.reward) k, hlk, hri]

theorem keys_updUnits (d : List (String × List ℚ)) (k : String) (r : ℚ) :
    (updUnits d k r).map (fun p => p.1) =
      if k ∈ d.map (fun p => p.1) then d.map (fun p => p.1)
      else d.map (fun p => p.1) ++ [k] := by
  induction d with
  | nil => simp [updUnits]
  | cons p rest ih =>
      rcases p with ⟨k1, v⟩
      by_cases h : k1 = k
      · subst h; simp [updUnits]
      · have hne : ¬ k = k1 := fun hh => h hh.symm
        simp only [updUnits, if_neg h, List.map_cons, ih]
        by_cases h2 : k ∈ rest.map (fun p => p.1) <;> simp [h2, hne]

theorem nodupKeys_unitsGo (items : List FeedItem) :
    ∀ d : List (String × List ℚ), (d.map (fun p => p.1)).Nodup →
      ((unitsGo d items).map (fun p => p.1)).Nodup := by
  induction items with
  | nil => intro d hd; exact hd
  | cons i rest ih =>
      intro d hd
      refine ih _ ?_
      rw [keys_updUnits]
      by_cases h : i.key ∈ d.map (fun p => p.1)
      · simpa [h] using hd
      · rw [if_neg h, List.nodup_append]
        refine ⟨hd, List.nodup_singleton _, ?_⟩
        intro a ha hb
        rw [List.mem_singleton] at hb
        exact h (hb ▸ ha)

theorem assoc_lookup_unique (d : List (String × List ℚ)) (k : String) (v : List ℚ)
    (hnod : (d.map (fun p => p.1)).Nodup) (h : lookupU k d = some v) :
    d.countP (fun p => p.1 == k) = 1 ∧ ∀ p ∈ d, p.1 = k → p.2 = v := by
  induction d with
  | nil => simp [lookupU] at h
  | cons q rest ih =>
      rcases q with ⟨k1, w⟩
      simp only [List.map_cons, List.nodup_cons] at hnod
      by_cases hk : k1 = k
      · subst hk
        have hw : w = v := by simpa [lookupU] using h
        have hz : rest.countP (fun p => p.1 == k1) = 0 := by
          rw [List.countP_eq_zero]
          intro p hp
          simp only [beq_iff_eq]
          intro hpe
          exact hnod.1 (hpe ▸ List.mem_map_of_mem (fun p => p.1) hp)
        constructor
        · rw [List.countP_cons, hz]; simp
        · intro p hp hpk
          rcases List.mem_cons.1 hp with rfl | hp2
          · exact hw
          · exact absurd (hpk ▸ List.mem_map_of_mem (fun p => p.1) hp2) hnod.1
      · simp only [lookupU, if_neg hk] at h
        rcases ih hnod.2 h with ⟨h1, h2⟩
        constructor
        · rw [List.countP_cons, h1]; simp [hk]
        · intro p hp hpk
          rcases List.mem_cons.1 hp with rfl | hp2
          · exact absurd hpk hk
          · exact h2 p hp2 hpk

theorem insertDescBy_perm (f : FeedItem → ℚ) (x : FeedItem) (l : Feed) :
    (insertDescBy f x l).Perm (x :: l) := by
  induction l with
  | nil => exact List.Perm.refl _
  | cons y ys ih =>
      by_cases h : f x ≤ f y
      · simp only [insertDescBy, if_pos h]
        exact (ih.cons y).trans (List.Perm.swap x y ys)
      · simp only [insertDescBy, if_neg h]
        exact List.Perm.refl _

theorem sortDescBy_perm (f : FeedItem → ℚ) (l : Feed) : (sortDescBy f l).Perm l := by
  induction l with
  | nil => exact List.Perm.refl _
  | cons x xs ih =>
      exact (insertDescBy_perm f x (sortDescBy f xs)).trans (ih.cons x)

theorem countP_key_reposition (l : Feed) (f : FeedItem → ℚ) (k : String) :
    (reposition l f).countP (fun x => x.key == k) = l.countP (fun x => x.key == k) := by
  have hpair := reposition_map_pair (sortDescBy f l) 0
  have h1 : (reposition l f).countP (fun x => x.key == k) =
      ((reposition l f).map (fun x => (x.key, x.reward))).countP (fun y => y.1 == k) := by
    rw [List.countP_map]; rfl
  have h2 : (sortDescBy f l).countP (fun x => x.key == k) =
      ((sortDescBy f l).map (fun x => (x.key, x.reward))).countP (fun y => y.1 == k) := by
    rw [List.countP_map]; rfl
  rw [h1]
  show ((reposition_by_index (sortDescBy f l)).map (fun x => (x.key, x.reward))).countP
      (fun y => y.1 == k) = _
  rw [reposition_by_index] at *
  rw [hpair, ← h2]
  exact (sortDescBy_perm f l).countP_eq _

theorem mem_reposition_full (l : Feed) (f : FeedItem → ℚ) (x : FeedItem)
    (h : x ∈ reposition l f) : ∃ y ∈ l, x.key = y.key ∧ x.reward = y.reward := by
  rcases mem_reposition (sortDescBy f l) 0 x h with ⟨y, hy, hk, hr⟩
  exact ⟨y, (sortDescBy_perm f l).mem_iff.mp hy, hk, hr⟩

theorem agg_single_entry (feeds : List Feed) (k : String) (strat : String) (v : List ℚ)
    (hs : lookupU k (unitsDict feeds) = some v) :
    (Scorers.agg { per_episode := false, agg_strategy := strat } feeds).countP
        (fun x => x.key == k) = 1 ∧
    ∀ x ∈ Scorers.agg { per_episode := false, agg_strategy := strat } feeds,
        x.key = k → x.reward = aggMethod strat v := by
  have hnod : ((unitsDict feeds).map (fun p => p.1)).Nodup :=
    nodupKeys_unitsGo feeds.flatten [] (by simp)
  rcases assoc_lookup_unique (unitsDict feeds) k v hnod hs with ⟨hcount, huniq⟩
  constructor
  · show (reposition _ _).countP _ = 1
    rw [countP_key_reposition, List.countP_map]
    simpa using hcount
  · intro x hx hxk
    rcases mem_reposition_full _ _ x hx with ⟨y, hy, hk, hr⟩
    rcases List.mem_map.1 hy with ⟨kv, hkv, hmk⟩
    have hkv1 : kv.1 = k := by rw [← hxk, hk, ← hmk]
    have hkv2 := huniq kv hkv hkv1
    rw [hr, ← hmk, hkv2]

/-! ## Claim C7 -/

/-- C7: with `per_episode = false`, for a key whose rewards across the open
experiment's feeds are `[1,2,3]`, the aggregation stage produces a single
entry for that key, with reward 6 under `agg_strategy = sum` and reward 2
under `agg_strategy = mean`. -/
theorem C7_agg_sum_mean (feeds : List Feed) (k : String)
    (h : rewardsOf k feeds = [1, 2, 3]) :
    ((Scorers.agg { per_episode := false, agg_strategy := "sum" } feeds).countP
        (fun x => x.key == k) = 1 ∧
      ∀ x ∈ Scorers.agg { per_episode := false, agg_strategy := "sum" } feeds,
        x.key = k → x.reward = 6) ∧
    ((Scorers.agg { per_episode := false, agg_strategy := "mean" } feeds).countP
        (fun x => x.key == k) = 1 ∧
      ∀ x ∈ Scorers.agg { per_episode := false, agg_strategy := "mean" } feeds,
        x.key = k → x.reward = 2) := by
  have hlk : lookupU k (unitsDict feeds) = some [1, 2, 3] := by
    rw [unitsDict, lookupU_unitsGo]
    rw [rewardsOf] at h
    simp [h, lookupU]
  have hsum := agg_single_entry feeds k "sum" [1, 2, 3] hlk
  have hmean := agg_single_entry feeds k "mean" [1, 2, 3] hlk
  have hns : ¬ (("sum" : String) = "mean") := by decide
  have hs6 : aggMethod "sum" [1, 2, 3] = 6 := by
    unfold aggMethod
    rw [if_neg hns, if_pos rfl]
    norm_num [List.sum_cons, List.sum_nil]
  have hm2 : aggMethod "mean" [1, 2, 3] = 2 := by
    unfold aggMethod
    rw [if_pos rfl]
    norm_num [List.sum_cons, List.sum_nil]
  exact ⟨⟨hsum.1, fun x hx hk2 => by rw [hsum.2 x hx hk2, hs6]⟩,
         ⟨hmean.1, fun x hx hk2 => by rw [hmean.2 x hx hk2, hm2]⟩⟩

/-- Witness for C7 on three concrete single-item feeds for key `"a"`. -/
theorem C7_agg_sum_mean_witness :
    ((Scorers.agg { per_episode := false, agg_strategy := "sum" }
        [[{ key := "a", pos := 0, reward := 1 }], [{ key := "a", pos := 1, reward := 2 }],
         [{ key := "a", pos := 0, reward := 3 }]]).countP
        (fun x => x.key == "a") = 1 ∧
      ∀ x ∈ Scorers.agg { per_episode := false, agg_strategy := "sum" }
        [[{ key := "a", pos := 0, reward := 1 }], [{ key := "a", pos := 1, reward := 2 }],
         [{ key := "a", pos := 0, reward := 3 }]],
        x.key = "a" → x.reward = 6) ∧
    ((Scorers.agg { per_episode := false, agg_strategy := "mean" }
        [[{ key := "a", pos := 0, reward := 1 }], [{ key := "a", pos := 1, reward := 2 }],
         [{ key := "a", pos := 0, reward := 3 }]]).countP
        (fun x => x.key == "a") = 1 ∧
      ∀ x ∈ Scorers.agg { per_episode := false, agg_strategy := "mean" }
        [[{ key := "a", pos := 0, reward := 1 }], [{ key := "a", pos := 1, reward := 2 }],
         [{ key := "a", pos := 0, reward := 3 }]],
        x.key = "a" → x.reward = 2) :=
  C7_agg_sum_mean
    [[{ key := "a", pos := 0, reward := 1 }], [{ key := "a", pos := 1, reward := 2 }],
     [{ key := "a", pos := 0, reward := 3 }]] "a" (by decide)

/-! ## Claim C6 -/

theorem earlyStopIter_matching (pt : Nat) (K : List String) :
    ∀ (rs : List EpisodeRecord) (p : Progress),
      p.patience = some pt →
      p.last_keys = K →
      p.is_stagnant = false →
      (∀ r ∈ rs, r.is_opt_episode = true ∧ p.start_at ≤ r.episode ∧
        feedKeys (r.feed_out.getD []) = K) →
      (p.n + rs.length < pt →
        (earlyStopIter p rs).is_stagnant = false ∧
        (earlyStopIter p rs).n = p.n + rs.length ∧
        (earlyStopIter p rs).last_keys = K ∧
        (earlyStopIter p rs).patience = some pt ∧
        (earlyStopIter p rs).start_at = p.start_at) ∧
      (p.n + rs.length = pt → rs ≠ [] → (earlyStopIter p rs).is_stagnant = true) := by
  intro rs
  induction rs with
  | nil =>
      intro p hpt hlk hst hall
      refine ⟨fun _ => ⟨hst, by simp [earlyStopIter], by simp [earlyStopIter, hlk],
        by simp [earlyStopIter, hpt], by simp [earlyStopIter]⟩, fun _ hne => absurd rfl hne⟩
  | cons r rest ih =>
      intro p hpt hlk hst hall
      rcases hall r (List.mem_cons_self r rest) with ⟨hopt, hsa, hkeys⟩
      have hstep : Progress.early_stop_step p r =
          if pt ≤ p.n + 1 then
            (if p.do_stop then
              { p with n := p.n + 1, is_stagnant := true, stop := true }
            else { p with n := p.n + 1, is_stagnant := true })
          else { p with n := p.n + 1, last_keys := feedKeys (r.feed_out.getD []) } := by
        rw [Progress.early_stop_step, hpt]
        simp only [hopt, if_true]
        rw [if_pos ⟨hsa, by rw [hlk, hkeys]⟩]
      constructor
      · intro hlt
        have hlt2 : ¬ pt ≤ p.n + 1 := by
          simp only [List.length_cons] at hlt; omega
        rw [earlyStopIter, hstep, if_neg hlt2]
        have hall2 : ∀ r2 ∈ rest, r2.is_opt_episode = true ∧ p.start_at ≤ r2.episode ∧
            feedKeys (r2.feed_out.getD []) = K := by
          intro r2 hr2
          simpa using hall r2 (List.mem_cons_of_mem r hr2)
        have := (ih { p with n := p.n + 1, last_keys := feedKeys (r.feed_out.getD []) }
          hpt (by simpa using hkeys) hst (by simpa using hall2)).1
        simp only [List.length_cons] at hlt
        rcases this (by simpa using (by omega : p.n + 1 + rest.length < pt)) with
          ⟨h1, h2, h3, h4, h5⟩
        refine ⟨h1, ?_, h3, h4, by simpa using h5⟩
        simp only [List.length_cons]
        simp only [Progress.n] at h2
        omega
      · intro heq hne
        cases rest with
        | nil =>
            have hle : pt ≤ p.n + 1 := by
              simp only [List.length_cons, List.length_nil] at heq; omega
            rw [earlyStopIter, hstep, if_pos hle, earlyStopIter]
            by_cases hds : p.do_stop <;> simp [hds]
        | cons r2 rest2 =>
            have hlt2 : ¬ pt ≤ p.n + 1 := by
              simp only [List.length_cons] at heq; omega
            rw [earlyStopIter, hstep, if_neg hlt2]
            have hall2 : ∀ r3 ∈ r2 :: rest2, r3.is_opt_episode = true ∧
                p.start_at ≤ r3.episode ∧ feedKeys (r3.feed_out.getD []) = K := by
              intro r3 hr3
              simpa using hall r3 (List.mem_cons_of_mem r hr3)
            refine (ih { p with n := p.n + 1, last_keys := feedKeys (r.feed_out.getD []) }
              hpt (by simpa using hkeys) hst (by simpa using hall2)).2 ?_ (by simp)
            show p.n + 1 + (r2 :: rest2).length = pt
            simp only [List.length_cons] at heq ⊢
            omega

/-- C6 (amended): starting from a fresh Monitor with `patience = pt ≥ 1`,
for a nonempty key order `K` produced by consecutive optimization episodes
at/after `start_at`, stagnation is declared exactly on the `(pt+1)`-th such
episode and on no earlier one: the first production only primes
`last_keys`, and each subsequent identical production increments the
counter, which must reach `pt`. -/
theorem C6_stagnation_on_patience_plus_one (pt sa : Nat) (ds : Bool) (K : List String)
    (rs : List EpisodeRecord)
    (hpt : 1 ≤ pt) (hK : K ≠ [])
    (hrs : ∀ r ∈ rs, r.is_opt_episode = true ∧ sa ≤ r.episode ∧
      feedKeys (r.feed_out.getD []) = K) :
    (rs.length ≤ pt →
      (earlyStopIter (mkProgress none (some pt) sa ds) rs).is_stagnant = false) ∧
    (rs.length = pt + 1 →
      (earlyStopIter (mkProgress none (some pt) sa ds) rs).is_stagnant = true) := by
  cases rs with
  | nil =>
      refine ⟨fun _ => rfl, fun h => ?_⟩
      simp only [List.length_nil] at h
      omega
  | cons r rest =>
      rcases hrs r (List.mem_cons_self r rest) with ⟨hopt, hsa, hkeys⟩
      have hKne : ¬ (([] : List String) = K) := fun hh => hK hh.symm
      have hstep : Progress.early_stop_step (mkProgress none (some pt) sa ds) r =
          { mkProgress none (some pt) sa ds with n := 0, last_keys := K } := by
        simp [Progress.early_stop_step, mkProgress, hopt, hkeys, hKne]
      have hiter : earlyStopIter (mkProgress none (some pt) sa ds) (r :: rest) =
          earlyStopIter ({ mkProgress none (some pt) sa ds with n := 0, last_keys := K }) rest := by
        rw [earlyStopIter, hstep]
      have hall2 : ∀ r2 ∈ rest,
          r2.is_opt_episode = true ∧
          ({ mkProgress none (some pt) sa ds with n := 0, last_keys := K } : Progress).start_at ≤ r2.episode ∧
          feedKeys (r2.feed_out.getD []) = K := by
        intro r2 hr2
        simpa [mkProgress] using hrs r2 (List.mem_cons_of_mem r hr2)
      have hm := earlyStopIter_matching pt K rest
        ({ mkProgress none (some pt) sa ds with n := 0, last_keys := K })
        (by simp [mkProgress]) rfl (by simp [mkProgress]) hall2
      constructor
      · intro hlen
        simp only [List.length_cons] at hlen
        rw [hiter]
        exact (hm.1 (by simp [mkProgress]; omega)).1
      · intro hlen
        simp only [List.length_cons] at hlen
        rw [hiter]
        refine hm.2 ?_ ?_
        · simp [mkProgress]; omega
        · intro hre
          rw [hre] at hlen
          simp only [List.length_nil] at hlen
          omega

/-- Witness for C6: with patience 2 the third consecutive identical
optimization episode declares stagnation. -/
theorem C6_stagnation_on_patience_plus_one_witness :
    (earlyStopIter (mkProgress none (some 2) 0 false)
      [aRecord 0, aRecord 1, aRecord 2]).is_stagnant = true :=
  (C6_stagnation_on_patience_plus_one 2 0 false ["a"] [aRecord 0, aRecord 1, aRecord 2]
    (by decide) (by decide) (by decide)).2 (by decide)

/-- C6 counterexample to the claim as stated: with `patience = 2` and the
same nonempty key order on 2 consecutive optimization episodes at/after
`start_at = 0`, the Monitor has NOT declared stagnation after the 2nd
(the patience-th) episode — the first production only primes `last_keys`. -/
theorem C6_counterexample :
    (aRecord 0).is_opt_episode = true ∧ (aRecord 1).is_opt_episode = true ∧
    feedKeys ((aRecord 0).feed_out.getD []) = ["a"] ∧
    feedKeys ((aRecord 1).feed_out.getD []) = ["a"] ∧
    (earlyStopIter (mkProgress none (some 2) 0 false)
      [aRecord 0, aRecord 1]).is_stagnant = false := by
  decide

/-! ## Driver step shape lemmas -/

theorem mem_experimentKeys_self (s : Experiments) :
    s.experiment_id ∈ s.experimentKeys := by
  unfold Experiments.experimentKeys Experiments.experiments assocSet
  by_cases h : s.logged_experiments.any (fun p => p.1 == s.experiment_id)
  · rw [if_pos h]
    rcases List.any_eq_true.mp h with ⟨p, hp, hpe⟩
    refine List.mem_map.mpr ⟨(s.experiment_id, s.experiment_logs), ?_, rfl⟩
    refine List.mem_map.mpr ⟨p, hp, ?_⟩
    rw [if_pos hpe]
  · rw [if_neg h]
    simp

theorem stopperUpd_cond (s : SeqOpt) :
    ((SeqOpt.stopperUpd s).stopper.stop || (SeqOpt.stopperUpd s).progress.stop) =
      SeqOpt.stopCond s := rfl

theorem opt_stop_eq (o : StepOracles) (s : SeqOpt) (f : Feed)
    (h : SeqOpt.stopCond s = true) :
    SeqOpt.opt o s f = (SeqOpt.stopperUpd s, s.feed_out) := by
  have hm : (SeqOpt.stopperUpd s).experiment_id ∈
      (SeqOpt.stopperUpd s).toExperiments.experimentKeys :=
    mem_experimentKeys_self (SeqOpt.stopperUpd s).toExperiments
  rw [SeqOpt.opt]
  rw [if_pos (stopperUpd_cond s ▸ h), if_pos hm]
  exact rfl

theorem opt_normal_eq (o : StepOracles) (s : SeqOpt) (f : Feed)
    (h : SeqOpt.stopCond s = false)
    (h2 : SeqOpt.resetFlag (SeqOpt.optCore o (SeqOpt.stopperUpd s) f) = false) :
    SeqOpt.opt o s f =
      ({ SeqOpt.optCore o (SeqOpt.stopperUpd s) f with
          episode := (SeqOpt.optCore o (SeqOpt.stopperUpd s) f).episode + 1 },
        (SeqOpt.optCore o (SeqOpt.stopperUpd s) f).feed_out) := by
  rw [SeqOpt.opt]
  rw [if_neg (by rw [stopperUpd_cond s, h]; exact Bool.false_ne_true)]
  rw [if_neg (by rw [h2]; exact Bool.false_ne_true)]

theorem opt_reset_eq (o : StepOracles) (s : SeqOpt) (f : Feed)
    (h : SeqOpt.stopCond s = false)
    (h2 : SeqOpt.resetFlag (SeqOpt.optCore o (SeqOpt.stopperUpd s) f) = true) :
    SeqOpt.opt o s f =
      (SeqOpt.reset_model (SeqOpt.add_experiment (SeqOpt.optCore o (SeqOpt.stopperUpd s) f)),
        none) := by
  rw [SeqOpt.opt]
  rw [if_neg (by rw [stopperUpd_cond s, h]; exact Bool.false_ne_true)]
  rw [if_pos h2]

/-! ## Claim C3 -/

/-- C3 (amended): every driver step returns the engine's current (post-step)
`feed_out`: the previous `feed_out` unchanged when stopped, the freshly
computed `feed_out` on a normal step, and `none` on a step that ends in a
restart/reset (which clears `feed_out`, so the returned `none` is still the
current value, but not the freshly computed ordering). -/
theorem C3_step_returns_current_feed_out (o : StepOracles) (s : SeqOpt) (f : Feed) :
    (SeqOpt.opt o s f).2 = (SeqOpt.opt o s f).1.feed_out ∧
    (SeqOpt.stopCond s = true → (SeqOpt.opt o s f).2 = s.feed_out) ∧
    (SeqOpt.stopCond s = false →
      SeqOpt.resetFlag (SeqOpt.optCore o (SeqOpt.stopperUpd s) f) = false →
      (SeqOpt.opt o s f).2 = (SeqOpt.optCore o (SeqOpt.stopperUpd s) f).feed_out) := by
  cases hstop : SeqOpt.stopCond s with
  | true =>
      rw [opt_stop_eq o s f hstop]
      exact ⟨rfl, fun _ => rfl, fun hc _ => Bool.noConfusion hc⟩
  | false =>
      cases hr : SeqOpt.resetFlag (SeqOpt.optCore o (SeqOpt.stopperUpd s) f) with
      | true =>
          rw [opt_reset_eq o s f hstop hr]
          refine ⟨?_, fun hc => Bool.noConfusion hc, fun _ hc2 => Bool.noConfusion hc2⟩
          exact rfl
      | false =>
          rw [opt_normal_eq o s f hstop hr]
          exact ⟨rfl, fun hc => Bool.noConfusion hc, fun _ _ => rfl⟩

/-- Witness for C3: a stopped step returns the previous `feed_out`, a normal
step returns the freshly computed one. -/
theorem C3_step_returns_current_feed_out_witness :
    (SeqOpt.opt constOracle stoppedState []).2 = stoppedState.feed_out ∧
    (SeqOpt.opt constOracle ceilingState []).2 =
      (SeqOpt.optCore constOracle (SeqOpt.stopperUpd ceilingState) []).feed_out :=
  ⟨(C3_step_returns_current_feed_out constOracle stoppedState []).2.1 (by decide),
   (C3_step_returns_current_feed_out constOracle ceilingState []).2.2 (by decide) (by decide)⟩

/-- C3 counterexample to the claim as stated: a reachable restart step
(patience 1, restart on stagnation, second step from a fresh engine) is not
stopped, its freshly computed `feed_out` is `[k]`, yet the step returns
`None`. -/
theorem C3_counterexample :
    SeqOpt.stopCond (SeqOpt.opt constOracle restartState []).1 = false ∧
    SeqOpt.resetFlag (SeqOpt.optCore constOracle
      (SeqOpt.stopperUpd (SeqOpt.opt constOracle restartState []).1) []) = true ∧
    (SeqOpt.optCore constOracle
        (SeqOpt.stopperUpd (SeqOpt.opt constOracle restartState []).1) []).feed_out =
      some [{ key := "k", pos := 0, reward := 0 }] ∧
    (SeqOpt.opt constOracle (SeqOpt.opt constOracle restartState []).1 []).2 = none := by
  decide

/-! ## Claim C4 -/

/-- C4 (amended): on a stopped step the driver performs no ledger update, no
scoring, no episode logging, returns the previous `feed_out` unchanged — and
it never archives the current experiment, because the guard
`experiment_id not in experiments` is always false (`experiments` always
contains the open experiment under the current id). -/
theorem C4_stop_branch_no_archive (o : StepOracles) (s : SeqOpt) (f : Feed)
    (h : SeqOpt.stopCond s = true) :
    (SeqOpt.opt o s f).2 = s.feed_out ∧
    (SeqOpt.opt o s f).1.toLogs = s.toLogs ∧
    (SeqOpt.opt o s f).1.logged_experiments = s.logged_experiments ∧
    (SeqOpt.opt o s f).1.episode = s.episode ∧
    (SeqOpt.opt o s f).1.experiment_id = s.experiment_id := by
  rw [opt_stop_eq o s f h]
  exact ⟨rfl, rfl, rfl, rfl, rfl⟩

/-- Witness for C4 on a concrete stopped engine. -/
theorem C4_stop_branch_no_archive_witness :
    (SeqOpt.opt constOracle stoppedState []).2 = stoppedState.feed_out ∧
    (SeqOpt.opt constOracle stoppedState []).1.toLogs = stoppedState.toLogs ∧
    (SeqOpt.opt constOracle stoppedState []).1.logged_experiments =
      stoppedState.logged_experiments ∧
    (SeqOpt.opt constOracle stoppedState []).1.episode = stoppedState.episode ∧
    (SeqOpt.opt constOracle stoppedState []).1.experiment_id = stoppedState.experiment_id :=
  C4_stop_branch_no_archive constOracle stoppedState [] (by decide)

/-- C4 counterexample to the claim as stated: a stopped engine whose open
experiment has one EpisodeRecord and whose history is empty still has an
empty history after the step — the record is NOT archived. -/
theorem C4_counterexample :
    SeqOpt.stopCond stoppedState = true ∧
    stoppedState.experiment_logs = [aRecord 0] ∧
    stoppedState.logged_experiments = [] ∧
    (SeqOpt.opt constOracle stoppedState []).1.logged_experiments = [] := by
  decide

/-! ## Claim C5 -/

theorem getLast?_map_episode (l : List EpisodeRecord) :
    (l.map (fun r => r.episode)).getLast? = l.getLast?.map (fun r => r.episode) := by
  induction l with
  | nil => rfl
  | cons a l ih =>
      cases l with
      | nil => rfl
      | cons b m =>
          simp only [List.map_cons, List.getLast?_cons_cons]
          simpa [List.map_cons] using ih

theorem invoke_no_trigger (c : Nat) (st : EpisodeLimit) (logs : List EpisodeRecord)
    (hc : st.n_episodes = some c)
    (h : ∀ r, logs.getLast? = some r → r.episode < c) :
    EpisodeLimit.invoke st logs = st := by
  unfold EpisodeLimit.invoke
  cases hl : logs.getLast? with
  | none => rw [hc]
  | some r =>
      rw [hc]
      exact if_neg (not_le.mpr (h r hl))

theorem stopperUpd_no_trigger (s : SeqOpt) (c : Nat)
    (hc : s.stopper.n_episodes = some c)
    (h : ∀ r, s.experiment_logs.getLast? = some r → r.episode < c) :
    SeqOpt.stopperUpd s = s := by
  unfold SeqOpt.stopperUpd
  rw [invoke_no_trigger c s.stopper s.experiment_logs hc h]

theorem progress_invoke_inert (p : Progress) (logs : List EpisodeRecord)
    (h1 : p.episodes = none) (h2 : p.patience = none) :
    Progress.invoke p logs = p := by
  unfold Progress.invoke Progress.episode_stopper Progress.early_stop
  rw [h1]
  cases hl : logs.getLast? with
  | none => rfl
  | some r => simp [Progress.early_stop_step, h2]

theorem optCore_config (o : StepOracles) (s : SeqOpt) (f : Feed) :
    (SeqOpt.optCore o s f).restart_on_stagnation = s.restart_on_stagnation ∧
    (SeqOpt.optCore o s f).interval = s.interval ∧
    (SeqOpt.optCore o s f).stopper = s.stopper ∧
    (SeqOpt.optCore o s f).episode = s.episode ∧
    (SeqOpt.optCore o s f).experiment_id = s.experiment_id ∧
    (SeqOpt.optCore o s f).logged_experiments = s.logged_experiments := by
  simp only [SeqOpt.optCore]
  split <;> exact ⟨rfl, rfl, rfl, rfl, rfl, rfl⟩

theorem optCore_progress (o : StepOracles) (s : SeqOpt) (f : Feed) :
    (SeqOpt.optCore o s f).progress =
      Progress.invoke s.progress (SeqOpt.optCore o s f).experiment_logs := by
  simp only [SeqOpt.optCore]
  split <;> rfl

theorem optCore_logs_episodes (o : StepOracles) (s : SeqOpt) (f : Feed) :
    (SeqOpt.optCore o s f).experiment_logs.map (fun r => r.episode) =
      s.experiment_logs.map (fun r => r.episode) ++ [s.episode] := by
  simp only [SeqOpt.optCore]
  split <;>
    simp [Logs.log_episode, Logs.log_feed, SeqOpt.add_trial_items, SeqOpt.select_and_score]

theorem c5Inv_last_lt (k : Nat) (s : SeqOpt) (hinv : c5Inv k s) (hk : k ≤ 3) :
    ∀ r, s.experiment_logs.getLast? = some r → r.episode < 3 := by
  intro r hr
  rcases hinv with ⟨-, -, -, -, -, -, -, hmap⟩
  have hml : (s.experiment_logs.map (fun r => r.episode)).getLast? = some r.episode := by
    rw [getLast?_map_episode, hr]
    rfl
  rw [hmap] at hml
  cases k with
  | zero => simp [List.range_zero] at hml
  | succ j =>
      rw [List.range_succ, List.getLast?_concat] at hml
      have : r.episode = j := by
        cases hml
        rfl
      omega

theorem c5_step (o : StepOracles) (s : SeqOpt) (f : Feed) (k : Nat)
    (hinv : c5Inv k s) (hk : k ≤ 3) :
    c5Inv (k + 1) (SeqOpt.opt o s f).1 ∧ SeqOpt.stopCond s = false := by
  obtain ⟨hpe, hpp, hps, hros, hint, hstopper, hep, hmap⟩ := hinv
  have hlast := c5Inv_last_lt k s ⟨hpe, hpp, hps, hros, hint, hstopper, hep, hmap⟩ hk
  have hnc : s.stopper.n_episodes = some 3 := by rw [hstopper]
  have hs' : SeqOpt.stopperUpd s = s := stopperUpd_no_trigger s 3 hnc hlast
  have hstop : SeqOpt.stopCond s = false := by
    unfold SeqOpt.stopCond
    rw [invoke_no_trigger 3 s.stopper s.experiment_logs hnc hlast, hstopper, hps]
    rfl
  have hreset : SeqOpt.resetFlag (SeqOpt.optCore o (SeqOpt.stopperUpd s) f) = false := by
    rw [hs']
    unfold SeqOpt.resetFlag
    rw [(optCore_config o s f).1, hros]
    rfl
  have hprog : (SeqOpt.optCore o s f).progress = s.progress := by
    rw [optCore_progress o s f]
    exact progress_invoke_inert s.progress _ hpe hpp
  refine ⟨?_, hstop⟩
  rw [opt_normal_eq o s f hstop hreset, hs']
  refine ⟨?_, ?_, ?_, ?_, ?_, ?_, ?_, ?_⟩
  · show (SeqOpt.optCore o s f).progress.episodes = none
    rw [hprog]; exact hpe
  · show (SeqOpt.optCore o s f).progress.patience = none
    rw [hprog]; exact hpp
  · show (SeqOpt.optCore o s f).progress.stop = false
    rw [hprog]; exact hps
  · show (SeqOpt.optCore o s f).restart_on_stagnation = false
    rw [(optCore_config o s f).1]; exact hros
  · show (SeqOpt.optCore o s f).interval = 1
    rw [(optCore_config o s f).2.1]; exact hint
  · show (SeqOpt.optCore o s f).stopper = { n_episodes := some 3, stop := false }
    rw [(optCore_config o s f).2.2.1]; exact hstopper
  · show (SeqOpt.optCore o s f).episode + 1 = k + 1
    rw [(optCore_config o s f).2.2.2.1, hep]
  · show (SeqOpt.optCore o s f).experiment_logs.map (fun r => r.episode) = List.range (k + 1)
    rw [optCore_logs_episodes o s f, hmap, hep, List.range_succ]

theorem stopCond_of_ceiling (c : Nat) (s : SeqOpt) (h : ceilingReached c s) :
    SeqOpt.stopCond s = true := by
  rcases h with ⟨h1, r, h2, h3⟩
  simp [SeqOpt.stopCond, EpisodeLimit.invoke, h1, h2, h3]

theorem opt_ceiling_step (c : Nat) (o : StepOracles) (s : SeqOpt) (f : Feed)
    (h : ceilingReached c s) :
    SeqOpt.opt o s f = (SeqOpt.stopperUpd s, s.feed_out) ∧
    (SeqOpt.stopperUpd s).toLogs = s.toLogs ∧
    ceilingReached c (SeqOpt.stopperUpd s) := by
  refine ⟨opt_stop_eq o s f (stopCond_of_ceiling c s h), rfl, ?_⟩
  rcases h with ⟨h1, r, h2, h3⟩
  refine ⟨?_, r, h2, h3⟩
  show (EpisodeLimit.invoke s.stopper s.experiment_logs).n_episodes = some c
  simp [EpisodeLimit.invoke, h1, h2, h3]

theorem runSteps_ceiling (c : Nat) (o : StepOracles) (gs : List Feed) :
    ∀ s, ceilingReached c s →
      (SeqOpt.runSteps o s gs).toLogs = s.toLogs ∧
      ceilingReached c (SeqOpt.runSteps o s gs) := by
  induction gs with
  | nil => intro s h; exact ⟨rfl, h⟩
  | cons g gs ih =>
      intro s h
      have hstep := opt_ceiling_step c o s g h
      have hrun : SeqOpt.runSteps o s (g :: gs) =
          SeqOpt.runSteps o (SeqOpt.stopperUpd s) gs := by
        show SeqOpt.runSteps o (SeqOpt.opt o s g).1 gs = _
        rw [hstep.1]
      rw [hrun]
      rcases ih (SeqOpt.stopperUpd s) hstep.2.2 with ⟨ih1, ih2⟩
      exact ⟨ih1.trans hstep.2.1, ih2⟩

/-- C5 (amended): with `episode_ceiling = 3`, the first FOUR driver steps
run normally (logging episodes 0–3); after the 4th step every further step
returns the prior `feed_out` unchanged and appends no new `EpisodeRecord`
(the stop check fires once the latest logged episode number reaches 3,
which first happens when the 4th step has logged episode 3). -/
theorem C5_after_fourth_step_frozen (o : StepOracles) (f1 f2 f3 f4 g : Feed)
    (gs : List Feed) :
    (SeqOpt.runSteps o (SeqOpt.runSteps o ceilingState [f1, f2, f3, f4]) gs).experiment_logs =
      (SeqOpt.runSteps o ceilingState [f1, f2, f3, f4]).experiment_logs ∧
    (SeqOpt.runSteps o (SeqOpt.runSteps o ceilingState [f1, f2, f3, f4]) gs).feed_out =
      (SeqOpt.runSteps o ceilingState [f1, f2, f3, f4]).feed_out ∧
    (SeqOpt.opt o (SeqOpt.runSteps o (SeqOpt.runSteps o ceilingState [f1, f2, f3, f4]) gs) g).2 =
      (SeqOpt.runSteps o ceilingState [f1, f2, f3, f4]).feed_out ∧
    (SeqOpt.opt o (SeqOpt.runSteps o (SeqOpt.runSteps o ceilingState [f1, f2, f3, f4]) gs) g).1.experiment_logs =
      (SeqOpt.runSteps o ceilingState [f1, f2, f3, f4]).experiment_logs := by
  have h0 : c5Inv 0 ceilingState := ⟨rfl, rfl, rfl, rfl, rfl, rfl, rfl, rfl⟩
  have h1 := c5_step o ceilingState f1 0 h0 (by omega)
  have h2 := c5_step o (SeqOpt.opt o ceilingState f1).1 f2 1 h1.1 (by omega)
  have h3 := c5_step o (SeqOpt.opt o (SeqOpt.opt o ceilingState f1).1 f2).1 f3 2 h2.1
    (by omega)
  have h4 := c5_step o
    (SeqOpt.opt o (SeqOpt.opt o (SeqOpt.opt o ceilingState f1).1 f2).1 f3).1 f4 3 h3.1
    (by omega)
  have hc4 : c5Inv 4 (SeqOpt.runSteps o ceilingState [f1, f2, f3, f4]) := h4.1
  have hceil : ceilingReached 3 (SeqOpt.runSteps o ceilingState [f1, f2, f3, f4]) := by
    rcases hc4 with ⟨-, -, -, -, -, hstopper, -, hmap⟩
    refine ⟨by rw [hstopper], ?_⟩
    have hml : ((SeqOpt.runSteps o ceilingState [f1, f2, f3, f4]).experiment_logs.map
        (fun r => r.episode)).getLast? = some 3 := by
      rw [hmap]; rfl
    rw [getLast?_map_episode] at hml
    cases hl : (SeqOpt.runSteps o ceilingState [f1, f2, f3, f4]).experiment_logs.getLast? with
    | none => rw [hl] at hml; simp at hml
    | some r =>
        rw [hl] at hml
        simp only [Option.map_some', Option.some.injEq] at hml
        refine ⟨r, rfl, ?_⟩
        omega
  have hrs := runSteps_ceiling 3 o gs (SeqOpt.runSteps o ceilingState [f1, f2, f3, f4]) hceil
  have hlogsL : (SeqOpt.runSteps o (SeqOpt.runSteps o ceilingState [f1, f2, f3, f4]) gs).experiment_logs =
      (SeqOpt.runSteps o ceilingState [f1, f2, f3, f4]).experiment_logs :=
    congrArg Logs.experiment_logs hrs.1
  have hfoL : (SeqOpt.runSteps o (SeqOpt.runSteps o ceilingState [f1, f2, f3, f4]) gs).feed_out =
      (SeqOpt.runSteps o ceilingState [f1, f2, f3, f4]).feed_out :=
    congrArg Logs.feed_out hrs.1
  have hfin := opt_ceiling_step 3 o
    (SeqOpt.runSteps o (SeqOpt.runSteps o ceilingState [f1, f2, f3, f4]) gs) g hrs.2
  refine ⟨hlogsL, hfoL, ?_, ?_⟩
  · rw [hfin.1]
    exact hfoL
  · rw [hfin.1]
    exact hlogsL

/-- C5 counterexample to the claim as stated: after the 3rd step the open
experiment holds 3 records, and the 4th step still appends one more (the
claim says no records are appended after the 3rd step). -/
theorem C5_counterexample :
    (SeqOpt.runSteps constOracle ceilingState [[], [], []]).experiment_logs.length = 3 ∧
    (SeqOpt.runSteps constOracle ceilingState [[], [], [], []]).experiment_logs.length = 4 := by
  decide
